import Mathlib

/-!
Shallow embedding of the gitroll match-engine pipeline: the cosine-similarity
ranker from src/lib/utils (findTopMatches, cosineSimilarity), the text
prefilter of src/app/api/search-profiles/route.ts, the embedding batch loop of
src/app/api/match-profiles/route.ts, and the durable-store upsert of
src/lib/storage.ts. JavaScript numbers are modelled as real numbers, fallible
code as Except, and the JS stable Array.sort as insertion sort.
-/

namespace Gitroll

/-- Models the TypeScript expression s short-circuit-or d for an optional
string field: both a missing field and the empty string are falsy in JS. -/
def orElseStr (s : Option String) (d : String) : String :=
  match s with
  | none => d
  | some v => if v = "" then d else v

/-- Models the JavaScript String.prototype.includes substring test. -/
def strIncludes (h n : String) : Bool :=
  h.toList.tails.any (fun t => n.toList.isPrefixOf t)

/-- The Profile interface of src/lib/utils. The embedding is an optional
numeric vector; all other optional fields are optional strings. -/
structure Profile where
  id : String
  name : String
  title : Option String
  company : Option String
  location : Option String
  industry : Option String
  linkedinUrl : Option String
  email : Option String
  summary : Option String
  experience : Option String
  education : Option String
  skills : Option (List String)
  profilePicture : Option String
  embedding : Option (List ℝ)
  uploadSessionId : Option String

/-- The MatchResult interface of src/lib/utils (the ranker's output row). -/
structure MatchResult where
  id : String
  name : String
  title : Option String
  company : Option String
  location : Option String
  industry : Option String
  linkedinUrl : Option String
  summary : Option String
  similarity : ℝ

/-- The ProfileWithEmbedding pair used inside findTopMatches. -/
structure ProfileWithEmbedding where
  profile : Profile
  similarity : ℝ

/-- Sum of pairwise products: the dotProduct accumulator of the
cosineSimilarity loop (equal lengths make zipWith cover every index). -/
def dotList (a b : List ℝ) : ℝ :=
  (List.zipWith (fun x y => x * y) a b).sum

/-- The normA accumulator of the cosineSimilarity loop: sum of squares. -/
def normSq (a : List ℝ) : ℝ := dotList a a

/-- cosineSimilarity from src/lib/utils: throws on length mismatch, returns 0
when either accumulated square-norm is zero, otherwise the dot product divided
by the product of the square roots of the accumulated square norms. -/
noncomputable def cosineSimilarity (a b : List ℝ) : Except String ℝ :=
  if a.length ≠ b.length then Except.error "Vectors must have the same length"
  else
    if normSq a = 0 ∨ normSq b = 0 then Except.ok 0
    else Except.ok (dotList a b / (Real.sqrt (normSq a) * Real.sqrt (normSq b)))

/-- The deduplication key built inside findTopMatches: lowercased trimmed name,
a dash, and the lowercased trimmed company with the literal fallback
"unknown" for a missing (or empty, hence falsy) company. -/
def profileKey (p : Profile) : String :=
  p.name.toLower.trim ++ "-" ++ (orElseStr p.company "unknown").toLower.trim

/-- The embedding guard of findTopMatches: the JS test
profile.embedding AND profile.embedding.length > 0. -/
def hasEmbedding (p : Profile) : Bool :=
  match p.embedding with
  | none => false
  | some e => decide (0 < e.length)

/-- The candidate loop of findTopMatches. Profiles without a nonempty
embedding are passed over; for the rest the dedup key is computed and keys
already seen are skipped; the similarity is computed (a thrown length-mismatch
error propagates through the whole call) and the entry is kept only when the
similarity reaches the minimum threshold. The key is recorded as seen before
the threshold test, exactly as in the source. -/
noncomputable def rankLoop (missionEmbedding : List ℝ) (minSimilarity : ℝ) :
    List Profile → List String → Except String (List ProfileWithEmbedding)
  | [], _ => Except.ok []
  | p :: rest, seen =>
    match p.embedding with
    | none => rankLoop missionEmbedding minSimilarity rest seen
    | some e =>
      if e.length = 0 then rankLoop missionEmbedding minSimilarity rest seen
      else
        if profileKey p ∈ seen then rankLoop missionEmbedding minSimilarity rest seen
        else
          match cosineSimilarity missionEmbedding e with
          | Except.error msg => Except.error msg
          | Except.ok similarity =>
            match rankLoop missionEmbedding minSimilarity rest (profileKey p :: seen) with
            | Except.error msg => Except.error msg
            | Except.ok tail =>
              if minSimilarity ≤ similarity then Except.ok (⟨p, similarity⟩ :: tail)
              else Except.ok tail

/-- The descending comparison used by the JS stable sort
(a, b) maps-to b.similarity - a.similarity inside findTopMatches. -/
def simGE (a b : ProfileWithEmbedding) : Prop :=
  b.similarity ≤ a.similarity

noncomputable instance simGE.decRel : DecidableRel simGE :=
  fun a b => inferInstanceAs (Decidable (b.similarity ≤ a.similarity))

instance simGE.total : IsTotal ProfileWithEmbedding simGE :=
  ⟨fun a b => le_total b.similarity a.similarity⟩

instance simGE.trans : IsTrans ProfileWithEmbedding simGE :=
  ⟨fun _ _ _ hab hbc => le_trans hbc hab⟩

/-- The same descending comparison lifted to position-annotated entries,
used to state stability of the sort. -/
def simGEIdx (a b : ℕ × ProfileWithEmbedding) : Prop :=
  simGE a.2 b.2

noncomputable instance simGEIdx.decRel : DecidableRel simGEIdx :=
  fun a b => simGE.decRel a.2 b.2

instance simGEIdx.total : IsTotal (ℕ × ProfileWithEmbedding) simGEIdx :=
  ⟨fun a b => simGE.total.total a.2 b.2⟩

instance simGEIdx.trans : IsTrans (ℕ × ProfileWithEmbedding) simGEIdx :=
  ⟨fun _ _ _ hab hbc => simGE.trans.trans _ _ _ hab hbc⟩

/-- The projection of a kept candidate to the returned MatchResult row. -/
def toMatchResult (x : ProfileWithEmbedding) : MatchResult :=
  ⟨x.profile.id, x.profile.name, x.profile.title, x.profile.company,
    x.profile.location, x.profile.industry, x.profile.linkedinUrl,
    x.profile.summary, x.similarity⟩

/-- findTopMatches from src/lib/utils: run the candidate loop, sort the kept
entries descending by similarity with the JS stable sort, truncate to topN and
project to MatchResult rows. A thrown error propagates. -/
noncomputable def findTopMatches (missionEmbedding : List ℝ) (profiles : List Profile)
    (topN : ℕ) (minSimilarity : ℝ) : Except String (List MatchResult) :=
  match rankLoop missionEmbedding minSimilarity profiles [] with
  | Except.error msg => Except.error msg
  | Except.ok pws =>
    Except.ok (((List.insertionSort simGE pws).take topN).map toMatchResult)

/-- The fixed industry keyword table of the search-profiles route, in
declaration order. -/
def industryKeywords : List (String × List String) :=
  [("construction",
    ["construction", "contractor", "contracting", "building", "civil",
     "engineering", "infrastructure", "development", "project", "site",
     "architect", "architectural"]),
   ("technology",
    ["software", "tech", "technology", "developer", "engineer", "programming",
     "coding", "data", "ai", "machine", "learning", "startup", "digital"]),
   ("healthcare",
    ["healthcare", "medical", "health", "doctor", "nurse", "hospital",
     "clinic", "pharmaceutical", "biotech", "medicine"]),
   ("finance",
    ["finance", "financial", "banking", "investment", "trading", "accounting",
     "audit", "risk", "compliance", "wealth"]),
   ("education",
    ["education", "teaching", "academic", "university", "school", "research",
     "professor", "instructor", "learning"]),
   ("marketing",
    ["marketing", "advertising", "brand", "digital", "social", "content",
     "creative", "design", "communications"]),
   ("sales",
    ["sales", "business", "development", "account", "client", "revenue",
     "growth", "partnership", "relationship"])]

/-- The stop-word list dropped from the tokenized mission text. -/
def missionStopwords : List String :=
  ["looking", "find", "want", "need", "seeking", "searching", "for", "the",
   "and", "or", "in", "at", "to", "with", "people", "professionals",
   "experts", "specialists"]

/-- Mission keywords: the lowercased mission split on whitespace, keeping
words longer than two characters that are not stop words. -/
def missionKeywordsOf (missionTextLower : String) : List String :=
  ((missionTextLower.split (fun c => c.isWhitespace)).filter
      (fun w => decide (2 < w.length))).filter
    (fun w => !(missionStopwords.contains w))

/-- Number of keywords of the list found (as substrings) in the text. -/
def countFound (text : String) (kws : List String) : ℕ :=
  (kws.filter (fun kw => strIncludes text kw)).length

/-- The primary-industry fold of the route: walk the keyword table in
declaration order carrying the best category and its count, replacing the
best only on a strictly greater count (initial count 0, initial category
null). -/
def detectLoop (missionTextLower : String) :
    List (String × List String) → Option String × ℕ → Option String × ℕ
  | [], acc => acc
  | c :: rest, (best, score) =>
    let m := countFound missionTextLower c.2
    if score < m then detectLoop missionTextLower rest (some c.1, m)
    else detectLoop missionTextLower rest (best, score)

/-- The primary-industry detector applied to the full keyword table. -/
def detectPrimaryIndustry (missionTextLower : String) : Option String × ℕ :=
  detectLoop missionTextLower industryKeywords (none, 0)

/-- A prefilter row: the profile spread together with its textScore and the
industryMatch/roleMatch flags, as built by the route's scoring map. -/
structure ScoredProfile where
  profile : Profile
  textScore : ℕ
  industryMatch : Bool
  roleMatch : Bool

/-- The generic role keyword list of the route. -/
def roleKeywords : List String :=
  ["contractor", "manager", "director", "lead", "senior", "specialist",
   "expert", "consultant", "freelancer", "independent"]

/-- The generic company-type (domain) keyword list of the route. -/
def companyKeywords : List String :=
  ["construction", "building", "contracting", "development", "engineering",
   "infrastructure"]

/-- The lowercase haystack: title, company, industry and summary joined by
single spaces, with empty strings for absent fields. -/
def haystack (p : Profile) : String :=
  ((p.title.getD "") ++ " " ++ (p.company.getD "") ++ " " ++
    (p.industry.getD "") ++ " " ++ (p.summary.getD "")).toLower

/-- The per-candidate location points: mission keywords matching the
lowercased location by a bidirectional substring test; a missing or empty
(falsy) location contributes nothing. -/
def locationPoints (missionKeywords : List String) (p : Profile) : ℕ :=
  match p.location with
  | none => 0
  | some loc =>
    if loc = "" then 0
    else
      (missionKeywords.filter
        (fun kw => strIncludes loc.toLower kw || strIncludes kw loc.toLower)).length

/-- The keyword list of the detected primary industry (empty when no industry
was detected or the table has no entry for it). -/
def primaryKeywordList (primaryIndustry : Option String) : List String :=
  match primaryIndustry with
  | none => []
  | some ind => (List.lookup ind industryKeywords).getD []

/-- The route's per-candidate scoring step: 3 points per primary-industry
keyword in the haystack (guarded, as in the source, by a positive count and a
detected industry), 2 points per role keyword, 2 points per company-type
keyword, and 1 point per mission keyword matching the location. -/
def scoreProfile (missionKeywords : List String) (primaryIndustry : Option String)
    (p : Profile) : ScoredProfile :=
  let profileText := haystack p
  let industryMatches := countFound profileText (primaryKeywordList primaryIndustry)
  let score1 := if 0 < industryMatches then industryMatches * 3 else 0
  let roleMatches := countFound profileText roleKeywords
  let score2 := score1 + (if 0 < roleMatches then roleMatches * 2 else 0)
  let companyMatches := countFound profileText companyKeywords
  let score3 := score2 + (if 0 < companyMatches then companyMatches * 2 else 0)
  let score4 := score3 + locationPoints missionKeywords p * 1
  ⟨p, score4, decide (0 < industryMatches), decide (0 < roleMatches)⟩

/-- The route's scoredProfiles map over the session's candidate list. -/
def scoredProfilesFor (mission : String) (profiles : List Profile) :
    List ScoredProfile :=
  let missionTextLower := mission.toLower
  profiles.map
    (scoreProfile (missionKeywordsOf missionTextLower)
      (detectPrimaryIndustry missionTextLower).1)

/-- The route's relevantProfiles: rows with a strictly positive textScore. -/
def relevantProfiles (mission : String) (profiles : List Profile) :
    List ScoredProfile :=
  (scoredProfilesFor mission profiles).filter (fun p => decide (0 < p.textScore))

/-- The descending comparison of the prefilter sort. -/
def scoreGE (a b : ScoredProfile) : Prop :=
  b.textScore ≤ a.textScore

instance scoreGE.decRel : DecidableRel scoreGE :=
  fun a b => inferInstanceAs (Decidable (b.textScore ≤ a.textScore))

instance scoreGE.total : IsTotal ScoredProfile scoreGE :=
  ⟨fun a b => le_total b.textScore a.textScore⟩

instance scoreGE.trans : IsTrans ScoredProfile scoreGE :=
  ⟨fun _ _ _ hab hbc => le_trans hbc hab⟩

/-- The route's topCandidates: relevant rows sorted descending by textScore
(JS stable sort) and truncated to the cap of 15. -/
def topCandidates (mission : String) (profiles : List Profile) :
    List ScoredProfile :=
  ((relevantProfiles mission profiles).insertionSort scoreGE).take 15

/-- A fallback row of the text-analysis fallback branch of the route:
the candidate's public fields with a similarity of textScore / 10 and a
reasoning string naming the text analysis. -/
structure FallbackMatch where
  id : String
  name : String
  title : Option String
  company : Option String
  location : Option String
  industry : Option String
  linkedinUrl : Option String
  summary : Option String
  similarity : ℝ
  reasoning : String

/-- Build one fallback row from a prefilter row. -/
noncomputable def toFallbackMatch (p : ScoredProfile) : FallbackMatch :=
  ⟨p.profile.id, p.profile.name, p.profile.title, p.profile.company,
    p.profile.location, p.profile.industry, p.profile.linkedinUrl,
    p.profile.summary, (p.textScore : ℝ) / 10,
    "This profile matches based on text analysis (score: " ++
      toString p.textScore ++ ")"⟩

/-- The distinct responses the search-profiles route can produce after the
prefilter and resolver stages (steps 4 and 5 of the handler). -/
inductive SearchResponse where
  | noRelevant : SearchResponse
  | fallbackMatches : List FallbackMatch → String → SearchResponse
  | noSuitable : SearchResponse
  | okMatches : List MatchResult → SearchResponse
  | pipelineError : String → SearchResponse

/-- The decision logic of the route after scoring and embedding resolution:
an empty prefilter output returns the no-relevant-profiles response; otherwise
the ranker runs on the candidates that carry embeddings with K = 6 and
threshold 0.3; an empty ranker result falls back to the top 6 text-scored
candidates exactly when no candidate carries an embedding, and otherwise
reports no suitable matches. -/
noncomputable def rankStage (missionEmbedding : List ℝ)
    (tc : List ScoredProfile) : SearchResponse :=
  if tc.length = 0 then SearchResponse.noRelevant
  else
    let candidatesWithEmbeddings := tc.filter (fun p => hasEmbedding p.profile)
    match findTopMatches missionEmbedding
        (candidatesWithEmbeddings.map (fun p => p.profile)) 6 (3 / 10) with
    | Except.error msg => SearchResponse.pipelineError msg
    | Except.ok ms =>
      if ms.length = 0 then
        if candidatesWithEmbeddings.length = 0 then
          SearchResponse.fallbackMatches ((tc.take 6).map toFallbackMatch)
            "Matches found using text analysis (embeddings not available)"
        else SearchResponse.noSuitable
      else SearchResponse.okMatches ms

/-- The batch loop of the match-profiles route, abstracted over an oracle
giving each batch's outcome (true = the embedding call succeeds). Returns how
many batches are attempted before the loop ends: a failed batch increments the
failedBatches counter, and the loop breaks as soon as the counter reaches
maxFailed; the counter is never reset by a successful batch. -/
def batchesAttempted (maxFailed : ℕ) : List Bool → ℕ → ℕ
  | [], _ => 0
  | ok :: rest, failedBatches =>
    if ok then 1 + batchesAttempted maxFailed rest failedBatches
    else if maxFailed ≤ failedBatches + 1 then 1
    else 1 + batchesAttempted maxFailed rest (failedBatches + 1)

/-- Modelled from the spec: the abort rule as the claim states it, with the
failure counter reset to zero by any successful batch, so that only maxFailed
failures in a row abort the loop. This definition follows the spec wording and
exists to be compared against batchesAttempted, the loop the code runs. -/
def batchesAttemptedConsecutive (maxFailed : ℕ) : List Bool → ℕ → ℕ
  | [], _ => 0
  | ok :: rest, failedBatches =>
    if ok then 1 + batchesAttemptedConsecutive maxFailed rest 0
    else if maxFailed ≤ failedBatches + 1 then 1
    else 1 + batchesAttemptedConsecutive maxFailed rest (failedBatches + 1)

/-- The MongoDB document shape of src/lib/storage.ts (LinkedInProfile),
without the two wall-clock Date fields (uploadedAt, lastUpdated), which have
no deterministic meaning in the embedding. -/
structure LinkedInProfile where
  id : String
  userId : String
  name : String
  title : String
  company : String
  location : String
  industry : String
  linkedinUrl : String
  email : String
  summary : String
  experience : String
  education : String
  skills : List String
  profilePicture : String
  uploadSessionId : Option String
  embedding : Option (List ℝ)
  uniqueKey : String

/-- The durable-store uniqueKey of src/lib/storage.ts: userId, lowercased
trimmed name and lowercased trimmed company with the literal fallback
"unknown", joined by dashes. -/
def storageUniqueKey (userId : String) (p : Profile) : String :=
  userId ++ "-" ++ p.name.toLower.trim ++ "-" ++
    (orElseStr p.company "unknown").toLower.trim

/-- The document built by saveProfiles for one profile. -/
def toLinkedInProfile (userId : String) (p : Profile) : LinkedInProfile :=
  ⟨p.id, userId, p.name, p.title.getD "", p.company.getD "",
    p.location.getD "", p.industry.getD "", p.linkedinUrl.getD "",
    p.email.getD "", p.summary.getD "", p.experience.getD "",
    p.education.getD "", p.skills.getD [], p.profilePicture.getD "",
    p.uploadSessionId, p.embedding, storageUniqueKey userId p⟩

/-- MongoDB replaceOne with upsert keyed on uniqueKey: replace every document
carrying the key when one exists, otherwise append the new document. -/
def upsertProfile (store : List LinkedInProfile) (entry : LinkedInProfile) :
    List LinkedInProfile :=
  if store.any (fun q => q.uniqueKey == entry.uniqueKey) then
    store.map (fun q => if q.uniqueKey = entry.uniqueKey then entry else q)
  else store ++ [entry]

/-- saveProfiles of src/lib/storage.ts: upsert each profile in order. -/
def saveProfiles (profiles : List Profile) (userId : String)
    (store : List LinkedInProfile) : List LinkedInProfile :=
  profiles.foldl (fun st p => upsertProfile st (toLinkedInProfile userId p)) store

/-- Look a document up by its uniqueKey (the replaceOne filter). -/
def findByKey (store : List LinkedInProfile) (k : String) :
    Option LinkedInProfile :=
  store.find? (fun q => q.uniqueKey == k)

/-- A profile with only the fields relevant to a concrete scenario set:
every other optional field is absent. -/
def mkProfile (id name : String) (company : Option String)
    (embedding : Option (List ℝ)) : Profile :=
  ⟨id, name, none, company, none, none, none, none, none, none, none, none,
    none, embedding, none⟩

/-- Scenario profile: the first occurrence of Ann at Acme, with no embedding. -/
def annFirst : Profile := mkProfile "1" "Ann" (some "Acme") none

/-- Scenario profile: the second occurrence of Ann at Acme, the only one
carrying an embedding. -/
def annSecond : Profile := mkProfile "2" "Ann" (some "Acme") (some [1])

/-- Scenario profile: a lone candidate with an embedding. -/
def bobEmbedded : Profile := mkProfile "3" "Bob" (some "BuildCo") (some [1])

/-- Scenario profile: Ann with no organization at all. -/
def annNoCompany : Profile := mkProfile "1" "Ann" none none

/-- Scenario profile: a distinct Ann whose organization is literally
"unknown". -/
def annUnknownCompany : Profile := mkProfile "2" "Ann" (some "unknown") none

/-- Scenario prefilter row: a candidate that scored 3 in the prefilter and
carries no embedding. -/
def scoredNoEmbedding : ScoredProfile :=
  ⟨mkProfile "7" "Cara" (some "SiteWorks") none, 3, true, false⟩

/-! Lemmas about the similarity kernel. -/

theorem dotList_eq_sum_range :
    ∀ (a b : List ℝ), a.length = b.length →
      dotList a b = ∑ i in Finset.range a.length, a.getD i 0 * b.getD i 0 := by
  intro a
  induction a with
  | nil =>
    intro b h
    simp [dotList]
  | cons x xs ih =>
    intro b h
    cases b with
    | nil => simp at h
    | cons y ys =>
      have hlen : xs.length = ys.length := by
        simpa using h
      have hrec := ih ys hlen
      simp only [dotList, List.zipWith_cons_cons, List.sum_cons,
        List.length_cons] at hrec ⊢
      rw [Finset.sum_range_succ']
      simp only [List.getD_cons_succ, List.getD_cons_zero]
      rw [← hrec]
      ring

theorem normSq_eq_sum_range (a : List ℝ) :
    normSq a = ∑ i in Finset.range a.length, a.getD i 0 * a.getD i 0 :=
  dotList_eq_sum_range a a rfl

theorem normSq_nonneg (a : List ℝ) : 0 ≤ normSq a := by
  rw [normSq_eq_sum_range]
  exact Finset.sum_nonneg fun i _ => mul_self_nonneg _

theorem normSq_cons (x : ℝ) (l : List ℝ) :
    normSq (x :: l) = x * x + normSq l := by
  simp [normSq, dotList]

theorem normSq_pos_of_exists_ne_zero :
    ∀ (a : List ℝ), (∃ x ∈ a, x ≠ 0) → 0 < normSq a := by
  intro a
  induction a with
  | nil => rintro ⟨x, hx, _⟩; simp at hx
  | cons y l ih =>
    rintro ⟨x, hx, hx0⟩
    rw [normSq_cons]
    rcases List.mem_cons.mp hx with rfl | hmem
    · have h1 : 0 < x * x := mul_self_pos.mpr hx0
      have h2 : 0 ≤ normSq l := normSq_nonneg l
      linarith
    · have h1 : 0 < normSq l := ih ⟨x, hmem, hx0⟩
      have h2 : 0 ≤ y * y := mul_self_nonneg y
      linarith

theorem dotList_le_sqrt_mul_sqrt (a b : List ℝ) (h : a.length = b.length) :
    dotList a b ≤ Real.sqrt (normSq a) * Real.sqrt (normSq b) := by
  rw [dotList_eq_sum_range a b h, normSq_eq_sum_range a, normSq_eq_sum_range b, h]
  have hcs := Real.sum_mul_le_sqrt_mul_sqrt (Finset.range b.length)
    (fun i => a.getD i 0) (fun i => b.getD i 0)
  simpa [pow_two] using hcs

theorem neg_sqrt_mul_sqrt_le_dotList (a b : List ℝ) (h : a.length = b.length) :
    -(Real.sqrt (normSq a) * Real.sqrt (normSq b)) ≤ dotList a b := by
  rw [dotList_eq_sum_range a b h, normSq_eq_sum_range a, normSq_eq_sum_range b, h]
  have hcs := Real.sum_mul_le_sqrt_mul_sqrt (Finset.range b.length)
    (fun i => -(a.getD i 0)) (fun i => b.getD i 0)
  have hneg : ∑ i in Finset.range b.length, -(a.getD i 0) * b.getD i 0 =
      -∑ i in Finset.range b.length, a.getD i 0 * b.getD i 0 := by
    rw [← Finset.sum_neg_distrib]
    exact Finset.sum_congr rfl fun i _ => by ring
  have hsq : ∑ i in Finset.range b.length, (-(a.getD i 0)) ^ 2 =
      ∑ i in Finset.range b.length, a.getD i 0 ^ 2 :=
    Finset.sum_congr rfl fun i _ => by ring
  rw [hneg, hsq] at hcs
  have hgoal := neg_le.mp hcs
  simpa [pow_two] using hgoal

theorem cosineSimilarity_of_length_eq {a b : List ℝ} (h : a.length = b.length) :
    cosineSimilarity a b =
      if normSq a = 0 ∨ normSq b = 0 then Except.ok 0
      else Except.ok (dotList a b /
        (Real.sqrt (normSq a) * Real.sqrt (normSq b))) := by
  unfold cosineSimilarity
  rw [if_neg (by simp [h])]

/-- C3: for equal-length vectors, cosineSimilarity is the dot product divided
by the product of the Euclidean norms, is 0 whenever either norm is zero,
always lies in the interval from -1 to 1, and equals 1 on a nonzero vector
paired with itself. -/
theorem c3_cosine_spec (a b : List ℝ) (h : a.length = b.length) :
    (normSq a ≠ 0 → normSq b ≠ 0 →
      cosineSimilarity a b = Except.ok (dotList a b /
        (Real.sqrt (normSq a) * Real.sqrt (normSq b)))) ∧
    (normSq a = 0 ∨ normSq b = 0 → cosineSimilarity a b = Except.ok 0) ∧
    (∀ v, cosineSimilarity a b = Except.ok v → -1 ≤ v ∧ v ≤ 1) ∧
    ((∃ x ∈ a, x ≠ 0) → cosineSimilarity a a = Except.ok 1) := by
  refine ⟨?_, ?_, ?_, ?_⟩
  · intro ha hb
    rw [cosineSimilarity_of_length_eq h, if_neg (by tauto)]
  · intro hz
    rw [cosineSimilarity_of_length_eq h, if_pos hz]
  · intro v hv
    rw [cosineSimilarity_of_length_eq h] at hv
    by_cases hz : normSq a = 0 ∨ normSq b = 0
    · rw [if_pos hz] at hv
      have : v = 0 := by
        injection hv with hv0
        exact hv0.symm
      rw [this]
      norm_num
    · rw [if_neg hz] at hv
      push_neg at hz
      have hA : 0 < normSq a := lt_of_le_of_ne (normSq_nonneg a) (Ne.symm hz.1)
      have hB : 0 < normSq b := lt_of_le_of_ne (normSq_nonneg b) (Ne.symm hz.2)
      have hs : 0 < Real.sqrt (normSq a) * Real.sqrt (normSq b) :=
        mul_pos (Real.sqrt_pos.mpr hA) (Real.sqrt_pos.mpr hB)
      have hvv : v = dotList a b / (Real.sqrt (normSq a) * Real.sqrt (normSq b)) := by
        injection hv with hv0
        exact hv0.symm
      rw [hvv]
      constructor
      · rw [le_div_iff₀ hs, neg_one_mul]
        exact neg_sqrt_mul_sqrt_le_dotList a b h
      · rw [div_le_one hs]
        exact dotList_le_sqrt_mul_sqrt a b h
  · intro hne
    have hA : 0 < normSq a := normSq_pos_of_exists_ne_zero a hne
    rw [cosineSimilarity_of_length_eq (rfl : a.length = a.length),
      if_neg (by simp [ne_of_gt hA])]
    rw [Real.mul_self_sqrt (le_of_lt hA)]
    have : dotList a a = normSq a := rfl
    rw [this, div_self (ne_of_gt hA)]

/-- Witness for C3 at the concrete vectors [1] and [0]: the length hypothesis
holds and the zero-norm case returns similarity 0. -/
theorem c3_witness :
    [(1 : ℝ)].length = [(0 : ℝ)].length ∧
      cosineSimilarity [(1 : ℝ)] [(0 : ℝ)] = Except.ok 0 :=
  ⟨rfl, (c3_cosine_spec [(1 : ℝ)] [(0 : ℝ)] rfl).2.1
    (Or.inr (by simp [normSq, dotList]))⟩

/-- C9: cosineSimilarity raises the length-mismatch error exactly on vectors
of unequal length, and is total (returns a value) on equal lengths. -/
theorem c9_length_guard (a b : List ℝ) :
    (a.length ≠ b.length →
      cosineSimilarity a b = Except.error "Vectors must have the same length") ∧
    (a.length = b.length → ∃ v, cosineSimilarity a b = Except.ok v) := by
  constructor
  · intro h
    unfold cosineSimilarity
    rw [if_pos h]
  · intro h
    rw [cosineSimilarity_of_length_eq h]
    by_cases hz : normSq a = 0 ∨ normSq b = 0
    · exact ⟨0, by rw [if_pos hz]⟩
    · exact ⟨_, by rw [if_neg hz]⟩

/-- Witness for C9 at the concrete vectors [1] and []: the lengths differ and
the error branch is taken. -/
theorem c9_witness :
    [(1 : ℝ)].length ≠ ([] : List ℝ).length ∧
      cosineSimilarity [(1 : ℝ)] [] =
        Except.error "Vectors must have the same length" :=
  ⟨by decide, (c9_length_guard [(1 : ℝ)] []).1 (by decide)⟩

/-! The embedding batch loop. -/

theorem getLast?_cons_of_getLast?_eq_some {α : Type} {x y : α} {l : List α}
    (h : l.getLast? = some y) : (x :: l).getLast? = some y := by
  cases l with
  | nil => simp at h
  | cons a l => rw [List.getLast?_cons_cons]; exact h

theorem batchesAttempted_spec (outcomes : List Bool) :
    ∀ f : ℕ, f < 3 →
      batchesAttempted 3 outcomes f ≤ outcomes.length ∧
      ((outcomes.take (batchesAttempted 3 outcomes f)).count false + f < 3 →
        batchesAttempted 3 outcomes f = outcomes.length) ∧
      (batchesAttempted 3 outcomes f < outcomes.length →
        (outcomes.take (batchesAttempted 3 outcomes f)).count false + f = 3 ∧
        (outcomes.take (batchesAttempted 3 outcomes f)).getLast? = some false) := by
  induction outcomes with
  | nil =>
    intro f _
    refine ⟨le_refl 0, fun _ => rfl, fun h => absurd h (by simp)⟩
  | cons b rest ih =>
    intro f hf
    cases b with
    | true =>
      have hrec := ih f hf
      have hdef : batchesAttempted 3 (true :: rest) f =
          1 + batchesAttempted 3 rest f := rfl
      rw [hdef]
      have htake : (true :: rest).take (1 + batchesAttempted 3 rest f) =
          true :: rest.take (batchesAttempted 3 rest f) := by
        rw [Nat.add_comm]
        rfl
      rw [htake]
      refine ⟨?_, ?_, ?_⟩
      · have h1 := hrec.1
        simp only [List.length_cons]
        omega
      · intro hcount
        have hc : (rest.take (batchesAttempted 3 rest f)).count false + f < 3 := by
          simp [List.count_cons] at hcount
          omega
        rw [hrec.2.1 hc]
        simp [Nat.add_comm]
      · intro hlt
        have hlt' : batchesAttempted 3 rest f < rest.length := by
          simp only [List.length_cons] at hlt
          omega
        have h3 := hrec.2.2 hlt'
        constructor
        · have h31 := h3.1
          simp [List.count_cons]
          omega
        · exact getLast?_cons_of_getLast?_eq_some h3.2
    | false =>
      have hstep : batchesAttempted 3 (false :: rest) f =
          if 3 ≤ f + 1 then 1 else 1 + batchesAttempted 3 rest (f + 1) := rfl
      by_cases hbudget : 3 ≤ f + 1
      · have hf2 : f = 2 := by omega
        rw [hstep, if_pos hbudget]
        have htake : (false :: rest).take 1 = [false] := rfl
        rw [htake]
        refine ⟨by simp, ?_, ?_⟩
        · intro hcount
          simp [hf2] at hcount
        · intro _
          refine ⟨by simp [hf2], rfl⟩
      · have hf1 : f + 1 < 3 := by omega
        have hrec := ih (f + 1) hf1
        rw [hstep, if_neg hbudget]
        have htake : (false :: rest).take (1 + batchesAttempted 3 rest (f + 1)) =
            false :: rest.take (batchesAttempted 3 rest (f + 1)) := by
          rw [Nat.add_comm]
          rfl
        rw [htake]
        refine ⟨?_, ?_, ?_⟩
        · have h1 := hrec.1
          simp only [List.length_cons]
          omega
        · intro hcount
          have hc : (rest.take (batchesAttempted 3 rest (f + 1))).count false +
              (f + 1) < 3 := by
            simp [List.count_cons] at hcount
            omega
          rw [hrec.2.1 hc]
          simp [Nat.add_comm]
        · intro hlt
          have hlt' : batchesAttempted 3 rest (f + 1) < rest.length := by
            simp only [List.length_cons] at hlt
            omega
          have h3 := hrec.2.2 hlt'
          constructor
          · have h31 := h3.1
            simp [List.count_cons]
            omega
          · exact getLast?_cons_of_getLast?_eq_some h3.2

/-- C7 counterexample: on the outcome sequence fail, ok, fail, ok, fail, ok
the code's loop attempts only 5 batches (the third cumulative failure aborts)
although no three consecutive batches fail, whereas the loop described by the
claim, whose counter is reset by every success, attempts all 6. -/
theorem c7_counterexample :
    batchesAttempted 3 [false, true, false, true, false, true] 0 = 5 ∧
      batchesAttemptedConsecutive 3 [false, true, false, true, false, true] 0 = 6 := by
  constructor <;> rfl

/-- C7 amended: the loop's failure counter is cumulative, never reset by a
success. All batches are attempted when the attempted prefix holds fewer than
3 failed batches, and an abort (some batch never attempted) happens exactly
when the attempted prefix holds exactly 3 failures, the last attempted batch
being a failing one; failing batches before the budget are skipped and
processing continues. -/
theorem c7_cumulative_abort (outcomes : List Bool) :
    batchesAttempted 3 outcomes 0 ≤ outcomes.length ∧
    ((outcomes.take (batchesAttempted 3 outcomes 0)).count false < 3 →
      batchesAttempted 3 outcomes 0 = outcomes.length) ∧
    (batchesAttempted 3 outcomes 0 < outcomes.length →
      (outcomes.take (batchesAttempted 3 outcomes 0)).count false = 3 ∧
      (outcomes.take (batchesAttempted 3 outcomes 0)).getLast? = some false) := by
  have h := batchesAttempted_spec outcomes 0 (by omega)
  refine ⟨h.1, ?_, ?_⟩
  · intro hc
    exact h.2.1 (by omega)
  · intro hlt
    have h3 := h.2.2 hlt
    exact ⟨by omega, h3.2⟩

/-- Witness for C7 amended at the concrete outcomes ok, fail: fewer than 3
failures are attempted, so both batches run. -/
theorem c7_witness :
    ([true, false].take (batchesAttempted 3 [true, false] 0)).count false < 3 ∧
      batchesAttempted 3 [true, false] 0 = [true, false].length :=
  ⟨by decide, (c7_cumulative_abort [true, false]).2.1 (by decide)⟩

/-! The text prefilter. -/

/-- C4: under the strict policy the prefilter output has at most 15 rows,
every returned row has a strictly positive textScore, and the rows are sorted
descending by textScore. -/
theorem c4_prefilter_spec (mission : String) (profiles : List Profile) :
    (topCandidates mission profiles).length ≤ 15 ∧
    (∀ p ∈ topCandidates mission profiles, 0 < p.textScore) ∧
    (topCandidates mission profiles).Pairwise scoreGE := by
  refine ⟨?_, ?_, ?_⟩
  · unfold topCandidates
    rw [List.length_take]
    exact min_le_left _ _
  · intro p hp
    unfold topCandidates at hp
    have h1 : p ∈ (relevantProfiles mission profiles).insertionSort scoreGE :=
      List.take_subset _ _ hp
    have h2 : p ∈ relevantProfiles mission profiles :=
      (List.perm_insertionSort scoreGE _).subset h1
    unfold relevantProfiles at h2
    have := List.of_mem_filter h2
    simpa using this
  · unfold topCandidates
    exact (List.sorted_insertionSort scoreGE _).sublist (List.take_sublist _ _)

/-- Witness for C4 at a concrete mission and candidate set: the cap holds. -/
theorem c4_witness :
    (topCandidates "looking for construction contractors" []).length ≤ 15 :=
  (c4_prefilter_spec "looking for construction contractors" []).1

theorem pos_guard_mul (n k : ℕ) : (if 0 < n then n * k else 0) = n * k := by
  by_cases h : 0 < n
  · rw [if_pos h]
  · rw [if_neg h]
    have : n = 0 := by omega
    rw [this, Nat.zero_mul]

/-- C5: the strict-policy text score of every candidate is 3 points per
primary-industry keyword found in the lowercase haystack of title, company,
industry and summary, plus 2 points per generic role keyword, plus 2 points
per generic company-domain keyword, plus 1 point per mission keyword matching
the location by the bidirectional substring test. -/
theorem c5_text_score_formula (mk : List String) (primary : Option String)
    (p : Profile) :
    (scoreProfile mk primary p).textScore =
      3 * countFound (haystack p) (primaryKeywordList primary) +
        2 * countFound (haystack p) roleKeywords +
        2 * countFound (haystack p) companyKeywords +
        1 * locationPoints mk p := by
  unfold scoreProfile
  simp only [pos_guard_mul]
  ring

/-- Witness for C5 at a concrete candidate with no mission keywords and no
detected industry: the score formula is exercised by direct application. -/
theorem c5_witness :
    (scoreProfile [] none (mkProfile "9" "Dan" none none)).textScore =
      3 * countFound (haystack (mkProfile "9" "Dan" none none))
          (primaryKeywordList none) +
        2 * countFound (haystack (mkProfile "9" "Dan" none none)) roleKeywords +
        2 * countFound (haystack (mkProfile "9" "Dan" none none))
          companyKeywords +
        1 * locationPoints [] (mkProfile "9" "Dan" none none) :=
  c5_text_score_formula [] none (mkProfile "9" "Dan" none none)

theorem detectLoop_cases (s : String) :
    ∀ (cats : List (String × List String)) (best : Option String) (score : ℕ),
      (detectLoop s cats (best, score) = (best, score) ∧
        ∀ c ∈ cats, countFound s c.2 ≤ score) ∨
      (∃ pre kws suf ind, cats = pre ++ (ind, kws) :: suf ∧
        detectLoop s cats (best, score) = (some ind, countFound s kws) ∧
        score < countFound s kws ∧
        (∀ c ∈ pre, countFound s c.2 < countFound s kws) ∧
        (∀ c ∈ suf, countFound s c.2 ≤ countFound s kws)) := by
  intro cats
  induction cats with
  | nil =>
    intro best score
    left
    exact ⟨rfl, by simp⟩
  | cons c rest ih =>
    intro best score
    have hstep : detectLoop s (c :: rest) (best, score) =
        if score < countFound s c.2 then
          detectLoop s rest (some c.1, countFound s c.2)
        else detectLoop s rest (best, score) := rfl
    by_cases himp : score < countFound s c.2
    · rw [hstep, if_pos himp]
      rcases ih (some c.1) (countFound s c.2) with ⟨heq, hall⟩ | hright
      · right
        refine ⟨[], c.2, rest, c.1, by simp, ?_, himp, by simp, hall⟩
        rw [heq]
      · rcases hright with ⟨pre, kws, suf, ind, hsplit, heq, hlt, hpre, hsuf⟩
        right
        refine ⟨c :: pre, kws, suf, ind, by rw [hsplit]; simp, heq,
          lt_trans himp hlt, ?_, hsuf⟩
        intro d hd
        rcases List.mem_cons.mp hd with rfl | hdm
        · exact hlt
        · exact hpre d hdm
    · rw [hstep, if_neg himp]
      rcases ih best score with ⟨heq, hall⟩ | hright
      · left
        refine ⟨heq, ?_⟩
        intro d hd
        rcases List.mem_cons.mp hd with rfl | hdm
        · omega
        · exact hall d hdm
      · rcases hright with ⟨pre, kws, suf, ind, hsplit, heq, hlt, hpre, hsuf⟩
        right
        refine ⟨c :: pre, kws, suf, ind, by rw [hsplit]; simp, heq, hlt, ?_, hsuf⟩
        intro d hd
        rcases List.mem_cons.mp hd with rfl | hdm
        · omega
        · exact hpre d hdm

/-- C6: the primary-industry detector returns no category exactly when every
category's keyword count in the mission text is zero; when it returns a
category, that category splits the declared table so that every earlier
category has a strictly smaller count and every later category a count no
larger, the returned score being the chosen category's positive count — the
first-declared category wins ties. -/
theorem c6_primary_industry_spec (missionTextLower : String) :
    ((∀ c ∈ industryKeywords, countFound missionTextLower c.2 = 0) →
      (detectPrimaryIndustry missionTextLower).1 = none) ∧
    ((detectPrimaryIndustry missionTextLower).1 = none →
      ∀ c ∈ industryKeywords, countFound missionTextLower c.2 = 0) ∧
    (∀ ind, (detectPrimaryIndustry missionTextLower).1 = some ind →
      ∃ pre kws suf, industryKeywords = pre ++ (ind, kws) :: suf ∧
        countFound missionTextLower kws = (detectPrimaryIndustry missionTextLower).2 ∧
        0 < (detectPrimaryIndustry missionTextLower).2 ∧
        (∀ c ∈ pre, countFound missionTextLower c.2 <
          (detectPrimaryIndustry missionTextLower).2) ∧
        (∀ c ∈ suf, countFound missionTextLower c.2 ≤
          (detectPrimaryIndustry missionTextLower).2)) := by
  have hc := detectLoop_cases missionTextLower industryKeywords none 0
  refine ⟨?_, ?_, ?_⟩
  · intro hall
    rcases hc with ⟨heq, _⟩ | ⟨pre, kws, suf, ind, hsplit, _, hlt, _, _⟩
    · unfold detectPrimaryIndustry
      rw [heq]
    · exfalso
      have hmem : (ind, kws) ∈ industryKeywords := by
        rw [hsplit]
        exact List.mem_append_right pre (List.mem_cons_self _ _)
      have := hall (ind, kws) hmem
      simp only at this
      omega
  · intro hnone c hcmem
    rcases hc with ⟨_, hall⟩ | ⟨pre, kws, suf, ind, _, heq, _, _, _⟩
    · have := hall c hcmem
      omega
    · exfalso
      unfold detectPrimaryIndustry at hnone
      rw [heq] at hnone
      simp at hnone
  · intro ind hind
    rcases hc with ⟨heq, _⟩ | ⟨pre, kws, suf, ind', hsplit, heq, hlt, hpre, hsuf⟩
    · exfalso
      unfold detectPrimaryIndustry at hind
      rw [heq] at hind
      simp at hind
    · unfold detectPrimaryIndustry at hind ⊢
      rw [heq] at hind ⊢
      have hind' : ind' = ind := by
        simpa using hind
      subst hind'
      exact ⟨pre, kws, suf, hsplit, rfl, hlt, hpre, hsuf⟩

/-- Witness for C6 at the concrete lowercased mission text about construction
contractors: the detector picks the construction category, and the split
guaranteed by the theorem exists. -/
theorem c6_witness :
    (detectPrimaryIndustry "looking for construction contractors in texas").1 =
        some "construction" ∧
      ∃ pre kws suf, industryKeywords = pre ++ ("construction", kws) :: suf ∧
        countFound "looking for construction contractors in texas" kws =
          (detectPrimaryIndustry "looking for construction contractors in texas").2 ∧
        0 < (detectPrimaryIndustry "looking for construction contractors in texas").2 ∧
        (∀ c ∈ pre, countFound "looking for construction contractors in texas" c.2 <
          (detectPrimaryIndustry "looking for construction contractors in texas").2) ∧
        (∀ c ∈ suf, countFound "looking for construction contractors in texas" c.2 ≤
          (detectPrimaryIndustry "looking for construction contractors in texas").2) :=
  ⟨by decide,
    (c6_primary_industry_spec "looking for construction contractors in texas").2.2
      "construction" (by decide)⟩

/-! Stability of the ranker's sort. -/

theorem map_snd_orderedInsert (x : ℕ × ProfileWithEmbedding) :
    ∀ l : List (ℕ × ProfileWithEmbedding),
      (List.orderedInsert simGEIdx x l).map Prod.snd =
        List.orderedInsert simGE x.2 (l.map Prod.snd) := by
  intro l
  induction l with
  | nil => rfl
  | cons b t ih =>
    by_cases h : simGE x.2 b.2
    · rw [List.orderedInsert_of_le simGEIdx t (show simGEIdx x b from h)]
      simp only [List.map_cons]
      rw [List.orderedInsert_of_le simGE (t.map Prod.snd) h]
    · have hneg : ¬ simGEIdx x b := h
      simp only [List.orderedInsert, if_neg hneg, if_neg h, List.map_cons]
      rw [ih]

theorem map_snd_insertionSort :
    ∀ l : List (ℕ × ProfileWithEmbedding),
      (List.insertionSort simGEIdx l).map Prod.snd =
        List.insertionSort simGE (l.map Prod.snd) := by
  intro l
  induction l with
  | nil => rfl
  | cons a t ih =>
    simp only [List.insertionSort]
    rw [map_snd_orderedInsert, ih]

theorem orderedInsert_tie_stable :
    ∀ (s : List (ℕ × ProfileWithEmbedding)) (a : ℕ × ProfileWithEmbedding),
      s.Pairwise (fun x y => x.2.similarity = y.2.similarity → x.1 < y.1) →
      s.Pairwise simGEIdx →
      (∀ b ∈ s, a.1 < b.1) →
      (List.orderedInsert simGEIdx a s).Pairwise
        (fun x y => x.2.similarity = y.2.similarity → x.1 < y.1) := by
  intro s
  induction s with
  | nil =>
    intro a _ _ _
    simp
  | cons b t ih =>
    intro a hp hs hmem
    by_cases h : simGEIdx a b
    · rw [List.orderedInsert_of_le simGEIdx t h]
      refine List.Pairwise.cons ?_ hp
      intro c hc _
      exact hmem c hc
    · simp only [List.orderedInsert, if_neg h]
      have hpb := List.pairwise_cons.mp hp
      have hsb := List.pairwise_cons.mp hs
      refine List.pairwise_cons.mpr
        ⟨?_, ih a hpb.2 hsb.2 (fun c hc => hmem c (List.mem_cons_of_mem b hc))⟩
      intro c hc
      rcases (List.mem_orderedInsert simGEIdx).mp hc with hca | hcm
      · intro heq
        subst hca
        have hlt : c.2.similarity < b.2.similarity :=
          lt_of_not_le (fun hle => h hle)
        rw [heq] at hlt
        exact absurd hlt (lt_irrefl _)
      · exact hpb.1 c hcm

theorem enumFrom_pairwise_fst_lt :
    ∀ (l : List ProfileWithEmbedding) (n : ℕ),
      (List.enumFrom n l).Pairwise (fun x y => x.1 < y.1) := by
  intro l
  induction l with
  | nil =>
    intro n
    simp
  | cons a t ih =>
    intro n
    refine List.pairwise_cons.mpr ⟨?_, ih (n + 1)⟩
    intro b hb
    have := List.le_fst_of_mem_enumFrom hb
    omega

theorem insertionSort_tie_stable :
    ∀ l : List (ℕ × ProfileWithEmbedding),
      l.Pairwise (fun x y => x.1 < y.1) →
      (List.insertionSort simGEIdx l).Pairwise
        (fun x y => x.2.similarity = y.2.similarity → x.1 < y.1) := by
  intro l
  induction l with
  | nil =>
    intro _
    simp
  | cons a t ih =>
    intro hp
    have hpc := List.pairwise_cons.mp hp
    simp only [List.insertionSort]
    refine orderedInsert_tie_stable _ a (ih hpc.2)
      (List.sorted_insertionSort simGEIdx t) ?_
    intro b hb
    exact hpc.1 b ((List.perm_insertionSort simGEIdx t).subset hb)

theorem rankLoop_spec (m : List ℝ) (t : ℝ) :
    ∀ (ps : List Profile) (seen : List String) (l : List ProfileWithEmbedding),
      rankLoop m t ps seen = Except.ok l →
      (∀ x ∈ l, t ≤ x.similarity ∧ hasEmbedding x.profile = true ∧
        profileKey x.profile ∉ seen ∧
        ∃ pre suf, ps = pre ++ x.profile :: suf ∧
          ∀ q ∈ pre, profileKey q = profileKey x.profile →
            hasEmbedding q = false) ∧
      l.Pairwise (fun x y => profileKey x.profile ≠ profileKey y.profile) := by
  intro ps
  induction ps with
  | nil =>
    intro seen l h
    simp only [rankLoop] at h
    injection h with h0
    subst h0
    exact ⟨by simp, List.Pairwise.nil⟩
  | cons p rest ih =>
    intro seen l h
    cases hemb : p.embedding with
    | none =>
      simp only [rankLoop, hemb] at h
      obtain ⟨hmem, hpw⟩ := ih seen l h
      refine ⟨?_, hpw⟩
      intro x hx
      obtain ⟨h1, h2, h3, pre, suf, hsplit, hpre⟩ := hmem x hx
      refine ⟨h1, h2, h3, p :: pre, suf, by rw [hsplit]; simp, ?_⟩
      intro q hq hkey
      rcases List.mem_cons.mp hq with rfl | hqm
      · simp [hasEmbedding, hemb]
      · exact hpre q hqm hkey
    | some e =>
      by_cases hlen : e.length = 0
      · simp only [rankLoop, hemb, if_pos hlen] at h
        obtain ⟨hmem, hpw⟩ := ih seen l h
        refine ⟨?_, hpw⟩
        intro x hx
        obtain ⟨h1, h2, h3, pre, suf, hsplit, hpre⟩ := hmem x hx
        refine ⟨h1, h2, h3, p :: pre, suf, by rw [hsplit]; simp, ?_⟩
        intro q hq hkey
        rcases List.mem_cons.mp hq with rfl | hqm
        · simp [hasEmbedding, hemb, hlen]
        · exact hpre q hqm hkey
      · by_cases hseen : profileKey p ∈ seen
        · simp only [rankLoop, hemb, if_neg hlen, if_pos hseen] at h
          obtain ⟨hmem, hpw⟩ := ih seen l h
          refine ⟨?_, hpw⟩
          intro x hx
          obtain ⟨h1, h2, h3, pre, suf, hsplit, hpre⟩ := hmem x hx
          refine ⟨h1, h2, h3, p :: pre, suf, by rw [hsplit]; simp, ?_⟩
          intro q hq hkey
          rcases List.mem_cons.mp hq with rfl | hqm
          · exfalso
            rw [hkey] at hseen
            exact h3 hseen
          · exact hpre q hqm hkey
        · cases hcos : cosineSimilarity m e with
          | error msg =>
            simp only [rankLoop, hemb, if_neg hlen, if_neg hseen, hcos] at h
            exact absurd h (by simp)
          | ok sim =>
            cases hrec : rankLoop m t rest (profileKey p :: seen) with
            | error msg =>
              simp only [rankLoop, hemb, if_neg hlen, if_neg hseen, hcos, hrec] at h
              exact absurd h (by simp)
            | ok tail =>
              simp only [rankLoop, hemb, if_neg hlen, if_neg hseen, hcos, hrec] at h
              obtain ⟨hmemT, hpwT⟩ := ih (profileKey p :: seen) tail hrec
              by_cases hth : t ≤ sim
              · rw [if_pos hth] at h
                injection h with h0
                subst h0
                constructor
                · intro x hx
                  rcases List.mem_cons.mp hx with rfl | hxm
                  · refine ⟨hth, ?_, hseen, [], rest, rfl, by simp⟩
                    simp only [hasEmbedding, hemb, decide_eq_true_eq]
                    omega
                  · obtain ⟨h1, h2, h3, pre, suf, hsplit, hpre⟩ := hmemT x hxm
                    have h3' : profileKey x.profile ∉ seen :=
                      fun hc => h3 (List.mem_cons_of_mem _ hc)
                    have hkeyne : profileKey x.profile ≠ profileKey p :=
                      fun hc => h3 (by rw [hc]; exact List.mem_cons_self _ _)
                    refine ⟨h1, h2, h3', p :: pre, suf, by rw [hsplit]; simp, ?_⟩
                    intro q hq hkey
                    rcases List.mem_cons.mp hq with rfl | hqm
                    · exact absurd hkey.symm hkeyne
                    · exact hpre q hqm hkey
                · refine List.pairwise_cons.mpr ⟨?_, hpwT⟩
                  intro y hy
                  obtain ⟨_, _, h3y, _⟩ := hmemT y hy
                  intro hc
                  exact h3y (by rw [← hc]; exact List.mem_cons_self _ _)
              · rw [if_neg hth] at h
                injection h with h0
                subst h0
                constructor
                · intro x hx
                  obtain ⟨h1, h2, h3, pre, suf, hsplit, hpre⟩ := hmemT x hx
                  have h3' : profileKey x.profile ∉ seen :=
                    fun hc => h3 (List.mem_cons_of_mem _ hc)
                  have hkeyne : profileKey x.profile ≠ profileKey p :=
                    fun hc => h3 (by rw [hc]; exact List.mem_cons_self _ _)
                  refine ⟨h1, h2, h3', p :: pre, suf, by rw [hsplit]; simp, ?_⟩
                  intro q hq hkey
                  rcases List.mem_cons.mp hq with rfl | hqm
                  · exact absurd hkey.symm hkeyne
                  · exact hpre q hqm hkey
                · exact hpwT

/-- C2: whenever findTopMatches returns a result list, it has at most topN
rows, every row's similarity reaches the minimum threshold, rows are in
descending similarity order, and the list is the stable descending sort of the
kept candidates — position-annotated entries with equal similarity stay in
input order — truncated and projected. -/
theorem c2_ranker_output_spec (m : List ℝ) (ps : List Profile) (topN : ℕ)
    (minSim : ℝ) (res : List MatchResult)
    (h : findTopMatches m ps topN minSim = Except.ok res) :
    res.length ≤ topN ∧
    (∀ r ∈ res, minSim ≤ r.similarity) ∧
    res.Pairwise (fun a b => b.similarity ≤ a.similarity) ∧
    ∀ pws, rankLoop m minSim ps [] = Except.ok pws →
      res = ((List.insertionSort simGEIdx pws.enum).take topN).map
          (fun x => toMatchResult x.2) ∧
      (List.insertionSort simGEIdx pws.enum).Pairwise
        (fun x y => y.2.similarity ≤ x.2.similarity ∧
          (x.2.similarity = y.2.similarity → x.1 < y.1)) := by
  cases hr : rankLoop m minSim ps [] with
  | error msg =>
    simp only [findTopMatches, hr] at h
    exact absurd h (by simp)
  | ok pws0 =>
    simp only [findTopMatches, hr] at h
    injection h with h0
    subst h0
    refine ⟨?_, ?_, ?_, ?_⟩
    · rw [List.length_map, List.length_take]
      exact min_le_left _ _
    · intro r hrm
      rw [List.mem_map] at hrm
      obtain ⟨x, hx, rfl⟩ := hrm
      have hx1 : x ∈ List.insertionSort simGE pws0 := List.take_subset _ _ hx
      have hx2 : x ∈ pws0 := (List.perm_insertionSort simGE pws0).subset hx1
      exact ((rankLoop_spec m minSim ps [] pws0 hr).1 x hx2).1
    · rw [List.pairwise_map]
      exact (List.sorted_insertionSort simGE pws0).sublist (List.take_sublist _ _)
    · intro pws hpws
      injection hpws with h1
      subst h1
      constructor
      · have hm : (List.insertionSort simGEIdx pws0.enum).map Prod.snd =
            List.insertionSort simGE pws0 := by
          rw [map_snd_insertionSort, List.enum_map_snd]
        conv_rhs =>
          rw [show (fun x : ℕ × ProfileWithEmbedding => toMatchResult x.2) =
            toMatchResult ∘ Prod.snd from rfl, ← List.map_map, List.map_take, hm]
      · exact (List.sorted_insertionSort simGEIdx pws0.enum).and
          (insertionSort_tie_stable pws0.enum (enumFrom_pairwise_fst_lt pws0 0))

/-- C1 amended: the ranker deduplicates only among candidates carrying a
nonempty embedding, keeping the first-encountered embedded occurrence of each
key: the kept entries have pairwise distinct keys, each kept entry carries an
embedding, and every earlier input occurrence with the same key lacks an
embedding. A first occurrence without an embedding is skipped entirely, so an
embedded later duplicate is the one ranked. -/
theorem c1_keeps_first_embedded (m : List ℝ) (minSim : ℝ) (ps : List Profile)
    (l : List ProfileWithEmbedding)
    (h : rankLoop m minSim ps [] = Except.ok l) :
    l.Pairwise (fun x y => profileKey x.profile ≠ profileKey y.profile) ∧
    ∀ x ∈ l, hasEmbedding x.profile = true ∧
      ∃ pre suf, ps = pre ++ x.profile :: suf ∧
        ∀ q ∈ pre, profileKey q = profileKey x.profile →
          hasEmbedding q = false := by
  obtain ⟨hmem, hpw⟩ := rankLoop_spec m minSim ps [] l h
  refine ⟨hpw, ?_⟩
  intro x hx
  obtain ⟨_, h2, _, pre, suf, hsplit, hpre⟩ := hmem x hx
  exact ⟨h2, pre, suf, hsplit, hpre⟩

/-! Concrete evaluations of the ranker. -/

theorem cosineSimilarity_one_one :
    cosineSimilarity [(1 : ℝ)] [(1 : ℝ)] = Except.ok 1 := by
  have hn : normSq [(1 : ℝ)] = 1 := by
    simp [normSq, dotList]
  rw [cosineSimilarity_of_length_eq rfl, if_neg (by rw [hn]; norm_num)]
  have hd : dotList [(1 : ℝ)] [(1 : ℝ)] = 1 := by
    simp [dotList]
  rw [hd, hn, Real.sqrt_one]
  norm_num

theorem rankLoop_eval_ann :
    rankLoop [(1 : ℝ)] 0 [annFirst, annSecond] [] =
      Except.ok [⟨annSecond, 1⟩] := by
  calc rankLoop [(1 : ℝ)] 0 [annFirst, annSecond] []
      = match cosineSimilarity [(1 : ℝ)] [(1 : ℝ)] with
        | Except.error msg => Except.error msg
        | Except.ok s =>
          if (0 : ℝ) ≤ s then Except.ok [⟨annSecond, s⟩] else Except.ok [] := rfl
    _ = if (0 : ℝ) ≤ 1 then Except.ok [⟨annSecond, 1⟩] else Except.ok [] := by
        rw [cosineSimilarity_one_one]
    _ = Except.ok [⟨annSecond, 1⟩] := by rw [if_pos (by norm_num)]

theorem findTopMatches_eval_ann :
    findTopMatches [(1 : ℝ)] [annFirst, annSecond] 5 0 =
      Except.ok [toMatchResult ⟨annSecond, 1⟩] := by
  simp only [findTopMatches, rankLoop_eval_ann]
  rfl

theorem rankLoop_eval_bob :
    rankLoop [(1 : ℝ)] 0 [bobEmbedded] [] = Except.ok [⟨bobEmbedded, 1⟩] := by
  calc rankLoop [(1 : ℝ)] 0 [bobEmbedded] []
      = match cosineSimilarity [(1 : ℝ)] [(1 : ℝ)] with
        | Except.error msg => Except.error msg
        | Except.ok s =>
          if (0 : ℝ) ≤ s then Except.ok [⟨bobEmbedded, s⟩] else Except.ok [] := rfl
    _ = if (0 : ℝ) ≤ 1 then Except.ok [⟨bobEmbedded, 1⟩] else Except.ok [] := by
        rw [cosineSimilarity_one_one]
    _ = Except.ok [⟨bobEmbedded, 1⟩] := by rw [if_pos (by norm_num)]

theorem findTopMatches_eval_bob :
    findTopMatches [(1 : ℝ)] [bobEmbedded] 5 0 =
      Except.ok [toMatchResult ⟨bobEmbedded, 1⟩] := by
  simp only [findTopMatches, rankLoop_eval_bob]
  rfl

/-- C1 counterexample: the same name and company appears twice, only the
second occurrence carries an embedding. The ranker returns the second
occurrence (id "2"), not the first-seen entry (id "1"): the embedding guard
runs before deduplication, so the first occurrence is skipped entirely and the
embedded later duplicate is preferred, contradicting the claim. -/
theorem c1_counterexample :
    findTopMatches [(1 : ℝ)] [annFirst, annSecond] 5 0 =
      Except.ok [toMatchResult ⟨annSecond, 1⟩] ∧
    (toMatchResult ⟨annSecond, 1⟩).id = "2" ∧
    profileKey annFirst = profileKey annSecond ∧
    annFirst.id = "1" :=
  ⟨findTopMatches_eval_ann, rfl, rfl, rfl⟩

/-- Witness for C1 amended at the concrete duplicate pair: the loop keeps the
embedded second occurrence, and the theorem's split puts the embedding-less
first occurrence in the prefix. -/
theorem c1_witness :
    rankLoop [(1 : ℝ)] 0 [annFirst, annSecond] [] = Except.ok [⟨annSecond, 1⟩] ∧
    ∀ x ∈ [(⟨annSecond, 1⟩ : ProfileWithEmbedding)],
      hasEmbedding x.profile = true ∧
      ∃ pre suf, [annFirst, annSecond] = pre ++ x.profile :: suf ∧
        ∀ q ∈ pre, profileKey q = profileKey x.profile →
          hasEmbedding q = false :=
  ⟨rankLoop_eval_ann,
    (c1_keeps_first_embedded [(1 : ℝ)] 0 [annFirst, annSecond] _
      rankLoop_eval_ann).2⟩

/-- Witness for C2 at a concrete one-candidate ranking: the hypothesis is
discharged by evaluation and the returned list has at most 5 rows. -/
theorem c2_witness :
    findTopMatches [(1 : ℝ)] [bobEmbedded] 5 0 =
      Except.ok [toMatchResult ⟨bobEmbedded, 1⟩] ∧
    [toMatchResult ⟨bobEmbedded, 1⟩].length ≤ 5 :=
  ⟨findTopMatches_eval_bob,
    (c2_ranker_output_spec [(1 : ℝ)] [bobEmbedded] 5 0 _ findTopMatches_eval_bob).1⟩

/-! The text-analysis fallback of the search route. -/

theorem findTopMatches_nil (m : List ℝ) (topN : ℕ) (minSim : ℝ) :
    findTopMatches m [] topN minSim = Except.ok [] := by
  simp [findTopMatches, rankLoop, List.insertionSort]

/-- C8 counterexample: when the prefilter returns no candidates at all, zero
prefiltered candidates carry an embedding, yet the route answers with the
no-relevant-profiles response (an empty match list), not with the text-score
fallback response, contradicting the claim read over every candidate set. -/
theorem c8_counterexample :
    rankStage [(1 : ℝ)] [] = SearchResponse.noRelevant ∧
    SearchResponse.noRelevant ≠ SearchResponse.fallbackMatches
      (([] : List ScoredProfile).map toFallbackMatch)
      "Matches found using text analysis (embeddings not available)" :=
  ⟨rfl, fun h => SearchResponse.noConfusion h⟩

/-- C8 amended: when the prefilter returns at least one candidate and none of
the prefiltered candidates carries an embedding, the route returns the
text-analysis fallback: the top 6 candidates by text score, each with
similarity textScore / 10 and a reasoning string naming the text analysis,
under the distinguishing fallback message, and the list is not empty. -/
theorem c8_fallback_amended (m : List ℝ) (tc : List ScoredProfile)
    (hne : tc.length ≠ 0)
    (hemb : ∀ p ∈ tc, hasEmbedding p.profile = false) :
    rankStage m tc = SearchResponse.fallbackMatches
      ((tc.take 6).map toFallbackMatch)
      "Matches found using text analysis (embeddings not available)" ∧
    0 < ((tc.take 6).map toFallbackMatch).length := by
  have hfil : tc.filter (fun p => hasEmbedding p.profile) = [] := by
    rw [List.filter_eq_nil_iff]
    intro a ha
    simp [hemb a ha]
  constructor
  · simp only [rankStage, if_neg hne, hfil, List.map_nil, findTopMatches_nil,
      List.length_nil]
    simp
  · rw [List.length_map, List.length_take]
    have : tc.length ≠ 0 := hne
    omega

/-- Witness for C8 amended at a concrete one-candidate prefilter output with
no embedding: the fallback response is produced. -/
theorem c8_witness :
    ([scoredNoEmbedding] : List ScoredProfile).length ≠ 0 ∧
    (∀ p ∈ [scoredNoEmbedding], hasEmbedding p.profile = false) ∧
    rankStage [(1 : ℝ)] [scoredNoEmbedding] = SearchResponse.fallbackMatches
      (([scoredNoEmbedding].take 6).map toFallbackMatch)
      "Matches found using text analysis (embeddings not available)" :=
  ⟨by decide, by decide,
    (c8_fallback_amended [(1 : ℝ)] [scoredNoEmbedding] (by decide) (by decide)).1⟩

/-! The durable store. -/

theorem save_pair_last_wins (u : String) (p q : Profile)
    (hkeyEq : storageUniqueKey u p = storageUniqueKey u q) :
    saveProfiles [p, q] u [] = [toLinkedInProfile u q] := by
  show upsertProfile (upsertProfile [] (toLinkedInProfile u p))
    (toLinkedInProfile u q) = [toLinkedInProfile u q]
  have h1 : upsertProfile [] (toLinkedInProfile u p) =
      [toLinkedInProfile u p] := rfl
  rw [h1]
  unfold upsertProfile
  have hbeq : ((toLinkedInProfile u p).uniqueKey ==
      (toLinkedInProfile u q).uniqueKey) = true :=
    beq_iff_eq.mpr hkeyEq
  simp only [List.any_cons, List.any_nil, hbeq, Bool.true_or, if_true,
    List.map_cons, List.map_nil, Bool.or_false]
  rw [if_pos (show (toLinkedInProfile u p).uniqueKey =
    (toLinkedInProfile u q).uniqueKey from hkeyEq)]

/-- C10 counterexample: Ann with no organization and a distinct Ann whose
organization is the literal string "unknown" collapse to one uniqueKey, and
after saving both in order the store holds the second profile (id "2"), not
the first encountered (id "1"): the replaceOne upsert makes the last
encountered win. -/
theorem c10_counterexample :
    storageUniqueKey "u" annNoCompany = storageUniqueKey "u" annUnknownCompany ∧
    saveProfiles [annNoCompany, annUnknownCompany] "u" [] =
      [toLinkedInProfile "u" annUnknownCompany] ∧
    (toLinkedInProfile "u" annUnknownCompany).id = "2" ∧
    annNoCompany.id = "1" :=
  ⟨rfl, save_pair_last_wins "u" annNoCompany annUnknownCompany rfl, rfl, rfl⟩

/-- C10 amended: two candidates whose names and unknown-defaulted
organizations normalise identically share both the ranker key and the store
uniqueKey, so they collapse to one entry; the ranker ranks at most one of the
two, while the durable store keeps the last encountered (the upsert replaces
the earlier duplicate). -/
theorem c10_key_collapse_amended (u : String) (p q : Profile)
    (hname : p.name = q.name)
    (hcomp : orElseStr p.company "unknown" = orElseStr q.company "unknown") :
    profileKey p = profileKey q ∧
    storageUniqueKey u p = storageUniqueKey u q ∧
    saveProfiles [p, q] u [] = [toLinkedInProfile u q] ∧
    (∀ m minSim l, rankLoop m minSim [p, q] [] = Except.ok l →
      l.length ≤ 1) := by
  have hpk : profileKey p = profileKey q := by
    unfold profileKey
    rw [hname, hcomp]
  have hkeyEq : storageUniqueKey u p = storageUniqueKey u q := by
    unfold storageUniqueKey
    rw [hname, hcomp]
  refine ⟨hpk, hkeyEq, save_pair_last_wins u p q hkeyEq, ?_⟩
  · intro m minSim l h
    obtain ⟨hmem, hpw⟩ := rankLoop_spec m minSim [p, q] [] l h
    cases l with
    | nil => simp
    | cons x t =>
      cases t with
      | nil => simp
      | cons y t2 =>
        exfalso
        obtain ⟨_, _, _, prex, sufx, hsx, _⟩ := hmem x (List.mem_cons_self _ _)
        obtain ⟨_, _, _, prey, sufy, hsy, _⟩ :=
          hmem y (List.mem_cons_of_mem _ (List.mem_cons_self _ _))
        have hxm : x.profile ∈ [p, q] := by
          rw [hsx]
          exact List.mem_append_right _ (List.mem_cons_self _ _)
        have hym : y.profile ∈ [p, q] := by
          rw [hsy]
          exact List.mem_append_right _ (List.mem_cons_self _ _)
        have hkx : profileKey x.profile = profileKey p := by
          rcases List.mem_cons.mp hxm with h1 | h1
          · rw [h1]
          · rw [List.mem_singleton.mp h1]
            exact hpk.symm
        have hky : profileKey y.profile = profileKey p := by
          rcases List.mem_cons.mp hym with h1 | h1
          · rw [h1]
          · rw [List.mem_singleton.mp h1]
            exact hpk.symm
        have hne := (List.pairwise_cons.mp hpw).1 y (List.mem_cons_self _ _)
        exact hne (by rw [hkx, hky])

/-- Witness for C10 amended at the concrete pair Ann-without-organization and
Ann-at-"unknown": the hypotheses hold by evaluation and the collapse follows. -/
theorem c10_witness :
    annNoCompany.name = annUnknownCompany.name ∧
    orElseStr annNoCompany.company "unknown" =
      orElseStr annUnknownCompany.company "unknown" ∧
    (profileKey annNoCompany = profileKey annUnknownCompany ∧
     storageUniqueKey "u" annNoCompany = storageUniqueKey "u" annUnknownCompany ∧
     saveProfiles [annNoCompany, annUnknownCompany] "u" [] =
       [toLinkedInProfile "u" annUnknownCompany] ∧
     (∀ m minSim l,
        rankLoop m minSim [annNoCompany, annUnknownCompany] [] = Except.ok l →
        l.length ≤ 1)) :=
  ⟨rfl, rfl, c10_key_collapse_amended "u" annNoCompany annUnknownCompany rfl rfl⟩

end Gitroll
